import Mathlib

/-!
Shallow embedding of the two seeding scripts of this repository,
`create_stores.py` and `populate_all_tables.py`, together with proofs of
the specification claims about them.

Python strings are modelled as `List Char` (Unicode code points), bytes as
`ℕ` below 256, Python `int` as `ℤ` (or `ℕ` for intermediate byte values),
and Python `float` values as `ℚ` (every numeric literal appearing in the
claims is exactly representable, so rational arithmetic is a faithful model
of the decimal values involved).
-/

set_option maxRecDepth 20000

namespace Mangalm

/-! ### MD5 (RFC 1321), as used by `hashlib.md5` in both scripts.

Bytes are naturals below 256; 32-bit words are naturals reduced mod `2^32`.
-/

/-- Truncate to a 32-bit word. -/
def w32 (n : ℕ) : ℕ := n % 2 ^ 32

/-- Left-rotate a 32-bit word by `s` bits (`0 ≤ s < 32`). -/
def rotl32 (x s : ℕ) : ℕ := (x <<< s) % 2 ^ 32 ||| (x >>> (32 - s))

/-- The 64 round constants `K[i] = ⌊|sin (i+1)| · 2^32⌋` of MD5. -/
def mdK : List ℕ :=
  [0xd76aa478, 0xe8c7b756, 0x242070db, 0xc1bdceee,
   0xf57c0faf, 0x4787c62a, 0xa8304613, 0xfd469501,
   0x698098d8, 0x8b44f7af, 0xffff5bb1, 0x895cd7be,
   0x6b901122, 0xfd987193, 0xa679438e, 0x49b40821,
   0xf61e2562, 0xc040b340, 0x265e5a51, 0xe9b6c7aa,
   0xd62f105d, 0x02441453, 0xd8a1e681, 0xe7d3fbc8,
   0x21e1cde6, 0xc33707d6, 0xf4d50d87, 0x455a14ed,
   0xa9e3e905, 0xfcefa3f8, 0x676f02d9, 0x8d2a4c8a,
   0xfffa3942, 0x8771f681, 0x6d9d6122, 0xfde5380c,
   0xa4beea44, 0x4bdecfa9, 0xf6bb4b60, 0xbebfbc70,
   0x289b7ec6, 0xeaa127fa, 0xd4ef3085, 0x04881d05,
   0xd9d4d039, 0xe6db99e5, 0x1fa27cf8, 0xc4ac5665,
   0xf4292244, 0x432aff97, 0xab9423a7, 0xfc93a039,
   0x655b59c3, 0x8f0ccc92, 0xffeff47d, 0x85845dd1,
   0x6fa87e4f, 0xfe2ce6e0, 0xa3014314, 0x4e0811a1,
   0xf7537e82, 0xbd3af235, 0x2ad7d2bb, 0xeb86d391]

/-- The per-round left-rotation amounts of MD5. -/
def mdS : List ℕ :=
  [7, 12, 17, 22, 7, 12, 17, 22, 7, 12, 17, 22, 7, 12, 17, 22,
   5, 9, 14, 20, 5, 9, 14, 20, 5, 9, 14, 20, 5, 9, 14, 20,
   4, 11, 16, 23, 4, 11, 16, 23, 4, 11, 16, 23, 4, 11, 16, 23,
   6, 10, 15, 21, 6, 10, 15, 21, 6, 10, 15, 21, 6, 10, 15, 21]

/-- `n` bytes of `v`, little-endian (higher bytes of `v` are truncated). -/
def leBytes (n v : ℕ) : List ℕ := (List.range n).map fun i => (v >>> (8 * i)) % 256

/-- A list of bytes read as a big-endian unsigned integer
(Python's `int.from_bytes(_, byteorder='big')`). -/
def bytesBE (l : List ℕ) : ℕ := l.foldl (fun acc b => acc * 256 + b) 0

/-- MD5 padding: append `0x80`, zero bytes up to 56 mod 64, then the
original bit length as 8 little-endian bytes. -/
def padMessage (msg : List ℕ) : List ℕ :=
  msg ++ [0x80] ++ List.replicate ((120 - (msg.length + 1) % 64) % 64) 0
      ++ leBytes 8 (8 * msg.length)

/-- Split a byte list into 64-byte chunks (structural recursion on a fuel
counter so the kernel can evaluate it; `fuel ≥ l.length` suffices). -/
def chunks64Aux : ℕ → List ℕ → List (List ℕ)
  | 0, _ => []
  | _, [] => []
  | fuel + 1, a :: l => (a :: l).take 64 :: chunks64Aux fuel ((a :: l).drop 64)

/-- Split a byte list into 64-byte chunks. -/
def chunks64 (l : List ℕ) : List (List ℕ) := chunks64Aux l.length l

/-- The sixteen little-endian 32-bit words of a 64-byte chunk. -/
def chunkWords (chunk : List ℕ) : List ℕ :=
  (List.range 16).map fun i =>
    chunk.getD (4 * i) 0 + 256 * chunk.getD (4 * i + 1) 0
      + 65536 * chunk.getD (4 * i + 2) 0 + 16777216 * chunk.getD (4 * i + 3) 0

/-- The MD5 nonlinear round function for round `i`. -/
def mdF (i b c d : ℕ) : ℕ :=
  if i < 16 then (b &&& c) ||| ((0xffffffff ^^^ b) &&& d)
  else if i < 32 then (d &&& b) ||| ((0xffffffff ^^^ d) &&& c)
  else if i < 48 then b ^^^ c ^^^ d
  else c ^^^ (b ||| (0xffffffff ^^^ d))

/-- The message-word index used in round `i`. -/
def mdG (i : ℕ) : ℕ :=
  if i < 16 then i
  else if i < 32 then (5 * i + 1) % 16
  else if i < 48 then (3 * i + 5) % 16
  else (7 * i) % 16

/-- One MD5 round on the state `(a, b, c, d)`. -/
def mdRound (M : List ℕ) (st : ℕ × ℕ × ℕ × ℕ) (i : ℕ) : ℕ × ℕ × ℕ × ℕ :=
  let f := w32 (mdF i st.2.1 st.2.2.1 st.2.2.2 + st.1 + mdK.getD i 0 + M.getD (mdG i) 0)
  (st.2.2.2, w32 (st.2.1 + rotl32 f (mdS.getD i 0)), st.2.1, st.2.2.1)

/-- Process one 64-byte chunk: 64 rounds, then add into the running state. -/
def mdChunk (st : ℕ × ℕ × ℕ × ℕ) (chunk : List ℕ) : ℕ × ℕ × ℕ × ℕ :=
  let M := chunkWords chunk
  let r := (List.range 64).foldl (mdRound M) st
  (w32 (st.1 + r.1), w32 (st.2.1 + r.2.1), w32 (st.2.2.1 + r.2.2.1), w32 (st.2.2.2 + r.2.2.2))

/-- The 16-byte MD5 digest of a byte string. -/
def md5 (msg : List ℕ) : List ℕ :=
  let st := (chunks64 (padMessage msg)).foldl mdChunk
    (0x67452301, 0xefcdab89, 0x98badcfe, 0x10325476)
  leBytes 4 st.1 ++ leBytes 4 st.2.1 ++ leBytes 4 st.2.2.1 ++ leBytes 4 st.2.2.2

/-- UTF-8 encoding of one code point (Python `str.encode()`). -/
def utf8Char (c : Char) : List ℕ :=
  let n := c.toNat
  if n < 0x80 then [n]
  else if n < 0x800 then [0xC0 ||| (n >>> 6), 0x80 ||| (n &&& 0x3F)]
  else if n < 0x10000 then
    [0xE0 ||| (n >>> 12), 0x80 ||| ((n >>> 6) &&& 0x3F), 0x80 ||| (n &&& 0x3F)]
  else
    [0xF0 ||| (n >>> 18), 0x80 ||| ((n >>> 12) &&& 0x3F),
     0x80 ||| ((n >>> 6) &&& 0x3F), 0x80 ||| (n &&& 0x3F)]

/-- UTF-8 encoding of a string (Python `name.encode()`). -/
def utf8 (s : List Char) : List ℕ := (s.map utf8Char).flatten

/-- The first 8 bytes of `md5(name.encode())` as a big-endian integer:
`int.from_bytes(hashlib.md5(name.encode()).digest()[:8], byteorder='big')`. -/
def hash64 (name : List Char) : ℕ := bytesBE ((md5 (utf8 name)).take 8)

/-- `populate_all_tables.py` line 29:
`product_id = int.from_bytes(hash_bytes[:8], byteorder='big') % (10**18)`. -/
def product_id (name : List Char) : ℤ := (hash64 name : ℤ) % 10 ^ 18

/-- `create_stores.py` line 21: `store_id =
int.from_bytes(hash_bytes[:8], byteorder='big') % (10**18) + 4261931000000000000`. -/
def store_id (name : List Char) : ℤ := (hash64 name : ℤ) % 10 ^ 18 + 4261931000000000000

/-! ### Python string primitives used by the scripts -/

/-- The ASCII whitespace characters stripped by Python `str.strip()`
(the scripts' CSV fields contain no non-ASCII whitespace). -/
def isPySpace (c : Char) : Bool :=
  c = ' ' || c = '\t' || c = '\n' || c = '\r' || c = '\x0b' || c = '\x0c'

/-- Python `str.strip()`: remove leading and trailing whitespace. -/
def pyStrip (s : List Char) : List Char :=
  ((s.dropWhile isPySpace).reverse.dropWhile isPySpace).reverse

/-- Whether `a` occurs at the start of `b`. -/
def leadsIn : List Char → List Char → Bool
  | [], _ => true
  | _ :: _, [] => false
  | a :: as, b :: bs => a == b && leadsIn as bs

/-- Python's substring containment `a in b`: `a` occurs contiguously in `b`. -/
def pyIn (a b : List Char) : Bool :=
  match b with
  | [] => a.isEmpty
  | _ :: bs => leadsIn a b || pyIn a bs

/-- Python string comparison `a <= b` (lexicographic on code points),
the order used by `sorted()` in `create_stores.py` line 17. -/
def lexLe : List Char → List Char → Bool
  | [], _ => true
  | _ :: _, [] => false
  | a :: as, b :: bs => if a < b then true else if b < a then false else lexLe as bs

/-- Python `s.replace('$', '').replace(',', '')`, the normalization applied
to the `Item Price` and `Total` fields before `float()`. -/
def stripCurrency (s : List Char) : List Char :=
  (s.filter fun c => !(c == '$')).filter fun c => !(c == ',')

/-- Value of a digit string. -/
def digitsVal (ds : List Char) : ℕ := ds.foldl (fun a c => a * 10 + (c.toNat - 48)) 0

/-- Optional exponent suffix of a Python float literal (after the mantissa):
empty, or `e`/`E`, an optional sign, and at least one digit. -/
def withExp (mant : ℚ) (t : List Char) : Option ℚ :=
  match t with
  | [] => some mant
  | e :: r =>
    if e == 'e' || e == 'E' then
      let (esgn, r2) : ℤ × List Char :=
        match r with
        | '-' :: r2 => (-1, r2)
        | '+' :: r2 => (1, r2)
        | r2 => (1, r2)
      let ed := r2.takeWhile Char.isDigit
      if ed.isEmpty || !(r2.dropWhile Char.isDigit).isEmpty then none
      else some (mant * (10 : ℚ) ^ (esgn * (digitsVal ed : ℤ)))
    else none

/-- Python `float(s)` on decimal literals: optional surrounding whitespace,
optional sign, an integer part and/or a fractional part (at least one digit in
total), and an optional exponent; any other input raises, modelled as `none`.
(`inf`/`nan` spellings and digit-group underscores are not modelled; the
scripts' data never contains them.) -/
def pyFloat (s : List Char) : Option ℚ :=
  let t0 := pyStrip s
  let (sgn, t) : ℚ × List Char :=
    match t0 with
    | '-' :: r => (-1, r)
    | '+' :: r => (1, r)
    | r => (1, r)
  let d1 := t.takeWhile Char.isDigit
  let t1 := t.dropWhile Char.isDigit
  match t1 with
  | [] => if d1.isEmpty then none else some (sgn * digitsVal d1)
  | '.' :: r =>
    let d2 := r.takeWhile Char.isDigit
    let t2 := r.dropWhile Char.isDigit
    if d1.isEmpty && d2.isEmpty then none
    else withExp (sgn * (digitsVal d1 + (digitsVal d2 : ℚ) / 10 ^ d2.length)) t2
  | _ => if d1.isEmpty then none else withExp (sgn * digitsVal d1) t1

/-! ### Data model: CSV rows and the records the scripts build -/

/-- One CSV record as seen through `csv.DictReader`: the fields the scripts
read (`Customer Name`, `Item Name`, `Item Price`, `Invoice ID`, `Quantity`,
`Total`), each a raw string. -/
structure Row where
  customerName : List Char
  itemName : List Char
  itemPrice : List Char
  invoiceId : List Char
  quantity : List Char
  total : List Char
deriving DecidableEq

/-- A product record as built by `populate_all_tables.py` lines 37-43. -/
structure Product where
  id : ℤ
  name : List Char
  price : ℚ
  category : List Char
  brand : List Char
deriving DecidableEq

/-- An invoice line item as built by `populate_all_tables.py` lines 55-61. -/
structure InvoiceItem where
  invoiceId : List Char
  productName : List Char
  quantity : ℚ
  price : ℚ
  total : ℚ
deriving DecidableEq

/-- Price parsing, `populate_all_tables.py` lines 32-35:
`float(row.get('Item Price', '0').replace('$', '').replace(',', ''))`,
with `except: price = 0.0`. -/
def parse_price (s : List Char) : ℚ := (pyFloat (stripCurrency s)).getD 0

/-- Category inference, line 41: `'Food' if any(x in item_name.lower() for x
in ['rice', 'dal', 'flour', 'oil', 'spice']) else 'Grocery'`. -/
def foodKeyword (name : List Char) : Bool :=
  let l := name.map Char.toLower
  ["rice".data, "dal".data, "flour".data, "oil".data, "spice".data].any fun k => pyIn k l

/-- First token of `str.split()` (split on whitespace runs, used on an
already-stripped non-empty name at line 42). -/
def splitFirst (s : List Char) : List Char :=
  (s.dropWhile isPySpace).takeWhile fun c => !isPySpace c

/-- The product record built at lines 37-43 from a (stripped, non-blank)
item name and the CSV row it first occurred in. -/
def mkProduct (name : List Char) (r : Row) : Product :=
  { id := product_id name
    name := name
    price := parse_price r.itemPrice
    category := if foodKeyword name then "Food".data else "Grocery".data
    brand := if ' ' ∈ name then splitFirst name else "Generic".data }

/-- Quantity/total parsing, lines 48-53: both fields are parsed inside one
`try`; if either raises, the `except` arm sets `quantity = 1; total = 0`. -/
def parseQtyTotal (q t : List Char) : ℚ × ℚ :=
  match pyFloat q, pyFloat (stripCurrency t) with
  | some a, some b => (a, b)
  | _, _ => (1, 0)

/-- The `products` update of one loop iteration (lines 25-43): on a non-blank
item name not yet a key of the dict, bind it to the record built from this
row; otherwise leave the dict unchanged. -/
def productStep (ps : List (List Char × Product)) (r : Row) : List (List Char × Product) :=
  let name := pyStrip r.itemName
  if name ≠ [] ∧ name ∉ ps.map Prod.fst then ps ++ [(name, mkProduct name r)] else ps

/-- One iteration of the CSV loop of `populate_all_tables.py` lines 23-61,
threading the `products` insertion-ordered dict (as an association list) and
the `invoice_items` list; the item's `price` field reads
`products[item_name]['price']` from the dict as updated by this iteration. -/
def scanStep (st : List (List Char × Product) × List InvoiceItem) (r : Row) :
    List (List Char × Product) × List InvoiceItem :=
  let name := pyStrip r.itemName
  let ps := productStep st.1 r
  if r.invoiceId ≠ [] ∧ name ≠ [] then
    let qt := parseQtyTotal r.quantity r.total
    (ps, st.2 ++ [{ invoiceId := r.invoiceId, productName := name, quantity := qt.1,
                    price := ((ps.lookup name).map Product.price).getD 0, total := qt.2 }])
  else (ps, st.2)

/-- The full CSV scan of `populate_all_tables.py`. -/
def scanCsv (rows : List Row) : List (List Char × Product) × List InvoiceItem :=
  rows.foldl scanStep ([], [])

/-- The `products` dict after the scan, as an insertion-ordered association list. -/
def products (rows : List Row) : List (List Char × Product) := (scanCsv rows).1

/-- The `invoice_items` list after the scan. -/
def invoice_items (rows : List Row) : List InvoiceItem := (scanCsv rows).2

/-- The stripped, non-blank `Item Name` values of the input, in file order. -/
def itemNames (rows : List Row) : List (List Char) :=
  (rows.map fun r => pyStrip r.itemName).filter fun n => !n.isEmpty

/-- The stripped, non-blank `Customer Name` values of the input, in file order
(`create_stores.py` lines 8-11). -/
def customerNames (rows : List Row) : List (List Char) :=
  (rows.map fun r => pyStrip r.customerName).filter fun n => !n.isEmpty

/-- Deduplication keeping the first occurrence of each value, given an initial
set of already-seen values; models both Python `set` insertion (where only
membership and cardinality are observable) and first-seen dict insertion. -/
def firstOccDedup {α : Type} [DecidableEq α] (seen : List α) : List α → List α
  | [] => []
  | a :: l => if a ∈ seen then firstOccDedup seen l else a :: firstOccDedup (a :: seen) l

/-- The distinct customer names of `create_stores.py`'s `customers` set. -/
def customersSet (rows : List Row) : List (List Char) := firstOccDedup [] (customerNames rows)

/-- The emission order of `create_stores.py` line 17: `sorted(customers)`.
One `VALUES` tuple is emitted per element, so this list also carries the
synthesized row count. -/
def storeNames (rows : List Row) : List (List Char) := (customersSet rows).mergeSort lexLe

/-- The invoice-to-order matcher, `populate_all_tables.py` lines 100-104:
scan `order_map` in iteration order and return the id of the first entry
`(order_num, oid)` with `invoice_id in order_num or order_num in invoice_id`. -/
def findOrder (invoiceId : List Char) : List (List Char × ℤ) → Option ℤ
  | [] => none
  | (num, oid) :: rest =>
    if pyIn invoiceId num || pyIn num invoiceId then some oid
    else findOrder invoiceId rest

/-- A pre-existing row of the `orders` table (read-only for these scripts). -/
structure DbOrder where
  id : ℤ
  storeId : ℤ
deriving DecidableEq

/-- A row of `upselling_recommendations` as produced by the `INSERT ... SELECT`
of `populate_all_tables.py` lines 132-156. -/
structure Recommendation where
  orderId : ℤ
  storeId : ℤ
  productId : ℤ
  recType : List Char
  confidence : ℚ
  expectedRevenue : ℚ
deriving DecidableEq

/-- The `CASE` classification of lines 141-145. -/
def recType (p : Product) : List Char :=
  if p.price > 50 then "upsell".data
  else if p.category = "Food".data then "cross_sell".data
  else "bundle".data

/-- The recommendation generator of lines 132-156: `orders CROSS JOIN products`,
keep a pair when `RANDOM() < 0.1`, confidence `RANDOM() * 0.5 + 0.5`, expected
revenue `price * 1.2`, `LIMIT 500`. The two per-row `RANDOM()` draws are
modelled by streams `rndF` (the `WHERE` filter) and `rndC` (the confidence
draw) indexed by the pair's position in the cross join; PostgreSQL's `RANDOM()`
ranges over `[0, 1)`, which becomes a hypothesis of the theorems. -/
def genRecs (rndF rndC : ℕ → ℚ) (orders : List DbOrder) (prods : List Product) :
    List Recommendation :=
  (((List.product orders prods).enum.filter fun ip => decide (rndF ip.1 < 1 / 10)).map
    fun ip =>
      Recommendation.mk ip.2.1.id ip.2.1.storeId ip.2.2.id (recType ip.2.2)
        (rndC ip.1 * (1 / 2) + 1 / 2) (ip.2.2.price * (6 / 5))).take 500

/-- A concrete CSV row used to instantiate the universally quantified claims:
`Basmati Rice` at price `$45.00`. -/
def sampleRow1 : Row :=
  ⟨"Store A".data, "Basmati Rice".data, "$45.00".data, "INV-1000X".data, "2".data, "$90.00".data⟩

/-- A second concrete row sharing the item name of `sampleRow1` with a
different price, as in the end-to-end scenario of the spec. -/
def sampleRow2 : Row :=
  ⟨"Store B".data, "Basmati Rice".data, "$50.00".data, "INV-200".data, "1".data, "$50.00".data⟩

/-- A concrete pre-existing order and a concrete product, to instantiate the
recommendation-generator claim. -/
def sampleOrder : DbOrder := ⟨7, 11⟩

/-- A concrete product record for the recommendation-generator claim. -/
def sampleProduct : Product := ⟨5, "x".data, 2, "Grocery".data, "Generic".data⟩

/-- Sanity anchor: the RFC 1321 test vector `md5("") = d41d8cd98f00b204e9800998ecf8427e`. -/
theorem md5_empty_vector :
    md5 [] = [0xd4, 0x1d, 0x8c, 0xd9, 0x8f, 0x00, 0xb2, 0x04,
              0xe9, 0x80, 0x09, 0x98, 0xec, 0xf8, 0x42, 0x7e] := by decide

/-- Sanity anchor: the RFC 1321 test vector for `md5("abc")`. -/
theorem md5_abc_vector :
    md5 (utf8 "abc".data) = [0x90, 0x01, 0x50, 0x98, 0x3c, 0xd2, 0x4f, 0xb0,
                             0xd6, 0x96, 0x3f, 0x7d, 0x28, 0xe1, 0x7f, 0x72] := by decide

/-- Sanity anchor: the derived identifiers agree with the Python scripts on a
concrete product/store name. -/
theorem derived_id_vector :
    product_id "a".data = 919145239626757800 ∧
    store_id "Basmati Rice".data = 5112269995742140055 := by decide

/-! ### Helper lemmas -/

theorem lexLe_total : ∀ a b : List Char, lexLe a b || lexLe b a := by
  intro a
  induction a with
  | nil => intro b; simp [lexLe]
  | cons x xs ih =>
    intro b
    cases b with
    | nil => simp [lexLe]
    | cons y ys =>
      simp only [lexLe]
      rcases lt_trichotomy x y with h | h | h
      · simp [h]
      · subst h
        simpa [lt_irrefl] using ih ys
      · simp [h, lt_asymm h]

theorem lexLe_trans : ∀ a b c : List Char, lexLe a b → lexLe b c → lexLe a c := by
  intro a
  induction a with
  | nil => intro b c _ _; simp [lexLe]
  | cons x xs ih =>
    intro b c h1 h2
    cases b with
    | nil => simp [lexLe] at h1
    | cons y ys =>
      cases c with
      | nil => simp [lexLe] at h2
      | cons z zs =>
        simp only [lexLe] at h1 h2 ⊢
        by_cases hxy : x < y
        · by_cases hyz : y < z
          · simp [lt_trans hxy hyz]
          · by_cases hzy : z < y
            · simp [hyz, hzy] at h2
            · have hyzeq : y = z := le_antisymm (not_lt.mp hzy) (not_lt.mp hyz)
              subst hyzeq
              simp [hxy]
        · by_cases hyx : y < x
          · simp [hxy, hyx] at h1
          · have hxyeq : x = y := le_antisymm (not_lt.mp hyx) (not_lt.mp hxy)
            subst hxyeq
            simp only [lt_irrefl, if_false] at h1 h2 ⊢
            by_cases hxz : x < z
            · simp [hxz]
            · by_cases hzx : z < x
              · simp [hxz, hzx] at h2
              · simp only [hxz, hzx, if_false] at h2 ⊢
                exact ih ys zs h1 h2

theorem mem_firstOccDedup {α : Type} [DecidableEq α] (x : α) :
    ∀ (l seen : List α), x ∈ firstOccDedup seen l ↔ x ∈ l ∧ x ∉ seen := by
  intro l
  induction l with
  | nil => intro seen; simp [firstOccDedup]
  | cons a l ih =>
    intro seen
    simp only [firstOccDedup]
    by_cases ha : a ∈ seen
    · rw [if_pos ha, ih]
      simp only [List.mem_cons]
      constructor
      · rintro ⟨hl, hs⟩; exact ⟨Or.inr hl, hs⟩
      · rintro ⟨rfl | hl, hs⟩
        · exact absurd ha hs
        · exact ⟨hl, hs⟩
    · rw [if_neg ha]
      simp only [List.mem_cons, ih, List.mem_cons]
      by_cases hx : x = a
      · subst hx; simp [ha]
      · simp [hx]

theorem nodup_firstOccDedup {α : Type} [DecidableEq α] :
    ∀ (l seen : List α), (firstOccDedup seen l).Nodup := by
  intro l
  induction l with
  | nil => intro seen; simp [firstOccDedup]
  | cons a l ih =>
    intro seen
    simp only [firstOccDedup]
    by_cases ha : a ∈ seen
    · rw [if_pos ha]; exact ih seen
    · rw [if_neg ha, List.nodup_cons]
      refine ⟨fun hmem => ?_, ih _⟩
      rw [mem_firstOccDedup] at hmem
      exact hmem.2 (List.mem_cons_self a seen)

theorem firstOccDedup_congr {α : Type} [DecidableEq α] :
    ∀ (l s₁ s₂ : List α), (∀ x, x ∈ s₁ ↔ x ∈ s₂) →
      firstOccDedup s₁ l = firstOccDedup s₂ l := by
  intro l
  induction l with
  | nil => intro s₁ s₂ _; rfl
  | cons a l ih =>
    intro s₁ s₂ h
    simp only [firstOccDedup]
    by_cases ha : a ∈ s₁
    · rw [if_pos ha, if_pos ((h a).mp ha)]
      exact ih _ _ h
    · rw [if_neg ha, if_neg (fun hx => ha ((h a).mpr hx))]
      refine congrArg (a :: ·) (ih _ _ fun x => ?_)
      simp only [List.mem_cons, h x]

theorem length_firstOccDedup {α : Type} [DecidableEq α] (l : List α) :
    (firstOccDedup [] l).length = l.dedup.length := by
  classical
  have h1 : (firstOccDedup ([] : List α) l).Nodup := nodup_firstOccDedup l []
  have h2 : l.dedup.Nodup := List.nodup_dedup l
  have h3 : (firstOccDedup ([] : List α) l).toFinset = l.dedup.toFinset := by
    ext x
    simp only [List.mem_toFinset, mem_firstOccDedup, List.mem_dedup, List.not_mem_nil,
      not_false_iff, and_true]
  calc (firstOccDedup ([] : List α) l).length
      = (firstOccDedup ([] : List α) l).toFinset.card := (List.toFinset_card_of_nodup h1).symm
    _ = l.dedup.toFinset.card := by rw [h3]
    _ = l.dedup.length := List.toFinset_card_of_nodup h2

theorem scanStep_fst (ps : List (List Char × Product)) (its : List InvoiceItem) (r : Row) :
    (scanStep (ps, its) r).1 = productStep ps r := by
  simp only [scanStep]
  split <;> rfl

theorem scanCsv_fst : ∀ (rows : List Row) (ps : List (List Char × Product))
    (its : List InvoiceItem),
    (rows.foldl scanStep (ps, its)).1 = rows.foldl productStep ps := by
  intro rows
  induction rows with
  | nil => intros; rfl
  | cons r rows ih =>
    intro ps its
    rw [List.foldl_cons, List.foldl_cons]
    have h := ih (scanStep (ps, its) r).1 (scanStep (ps, its) r).2
    rw [Prod.mk.eta] at h
    rw [h, scanStep_fst]

theorem scanStep_snd_length (ps : List (List Char × Product)) (its : List InvoiceItem)
    (r : Row) :
    (scanStep (ps, its) r).2.length
      = its.length + (if r.invoiceId ≠ [] ∧ pyStrip r.itemName ≠ [] then 1 else 0) := by
  simp only [scanStep]
  split <;> simp_all

theorem scanCsv_snd_length : ∀ (rows : List Row) (ps : List (List Char × Product))
    (its : List InvoiceItem),
    (rows.foldl scanStep (ps, its)).2.length
      = its.length
        + (rows.filter fun r => decide (r.invoiceId ≠ [] ∧ pyStrip r.itemName ≠ [])).length := by
  intro rows
  induction rows with
  | nil => intros; simp
  | cons r rows ih =>
    intro ps its
    rw [List.foldl_cons]
    have h := ih (scanStep (ps, its) r).1 (scanStep (ps, its) r).2
    rw [Prod.mk.eta] at h
    rw [h, scanStep_snd_length, List.filter_cons]
    by_cases hc : r.invoiceId ≠ [] ∧ pyStrip r.itemName ≠ []
    · simp [hc]
      omega
    · simp [hc]

theorem keys_foldl_productStep : ∀ (rows : List Row) (acc : List (List Char × Product)),
    (rows.foldl productStep acc).map Prod.fst
      = acc.map Prod.fst ++ firstOccDedup (acc.map Prod.fst) (itemNames rows) := by
  intro rows
  induction rows with
  | nil => intro acc; simp [itemNames, firstOccDedup]
  | cons r rows ih =>
    intro acc
    rw [List.foldl_cons]
    by_cases hb : pyStrip r.itemName = []
    · have hstep : productStep acc r = acc := by
        simp only [productStep]
        rw [if_neg fun h => h.1 hb]
      have hnames : itemNames (r :: rows) = itemNames rows := by
        simp [itemNames, hb]
      rw [hstep, hnames, ih]
    · have hnames : itemNames (r :: rows) = pyStrip r.itemName :: itemNames rows := by
        simp [itemNames, hb]
      by_cases hmem : pyStrip r.itemName ∈ acc.map Prod.fst
      · have hstep : productStep acc r = acc := by
          simp only [productStep]
          rw [if_neg fun h => h.2 hmem]
        rw [hstep, hnames, ih]
        simp [firstOccDedup, hmem]
      · have hstep : productStep acc r
            = acc ++ [(pyStrip r.itemName, mkProduct (pyStrip r.itemName) r)] := by
          simp only [productStep]
          rw [if_pos ⟨hb, hmem⟩]
        rw [hstep, hnames, ih]
        simp only [firstOccDedup, if_neg hmem, List.map_append, List.map_cons,
          List.map_nil]
        rw [firstOccDedup_congr (itemNames rows)
          (acc.map Prod.fst ++ [pyStrip r.itemName])
          (pyStrip r.itemName :: acc.map Prod.fst)
          (fun x => by
            rw [List.mem_append, List.mem_singleton, List.mem_cons]
            exact or_comm)]
        simp

theorem lookup_foldl_productStep (name : List Char) (hname : name ≠ []) :
    ∀ (rows : List Row) (acc : List (List Char × Product)),
    (rows.foldl productStep acc).lookup name
      = (acc.lookup name).or
          ((rows.find? fun r => decide (pyStrip r.itemName = name)).map (mkProduct name)) := by
  intro rows
  induction rows with
  | nil => intro acc; simp [Option.or_none]
  | cons r rows ih =>
    intro acc
    rw [List.foldl_cons]
    by_cases heq : pyStrip r.itemName = name
    · rw [List.find?_cons_of_pos _ (by simp [heq])]
      by_cases hmem : name ∈ acc.map Prod.fst
      · have hstep : productStep acc r = acc := by
          simp only [productStep]
          rw [if_neg fun h => h.2 (by rw [heq]; exact hmem)]
        rw [hstep, ih]
        have hsome : (acc.lookup name).isSome := by
          rw [List.lookup_isSome_iff]
          obtain ⟨p, hp, hfst⟩ := List.mem_map.mp hmem
          exact ⟨p, hp, beq_iff_eq.mpr hfst.symm⟩
        obtain ⟨v, hv⟩ := Option.isSome_iff_exists.mp hsome
        rw [hv, Option.or_some, Option.or_some]
      · have hb : pyStrip r.itemName ≠ [] := by rw [heq]; exact hname
        have hstep : productStep acc r
            = acc ++ [(pyStrip r.itemName, mkProduct (pyStrip r.itemName) r)] := by
          simp only [productStep]
          rw [if_pos ⟨hb, by rw [heq]; exact hmem⟩]
        rw [hstep, ih, List.lookup_append]
        have hnone : acc.lookup name = none := by
          rw [List.lookup_eq_none_iff]
          intro p hp
          simp only [bne_iff_ne, ne_eq]
          intro hcontra
          exact hmem (List.mem_map.mpr ⟨p, hp, hcontra.symm⟩)
        rw [hnone, Option.none_or]
        subst heq
        simp [List.lookup_cons]
    · rw [List.find?_cons_of_neg _ (by simp [heq])]
      by_cases hadd : pyStrip r.itemName ≠ [] ∧ pyStrip r.itemName ∉ acc.map Prod.fst
      · have hstep : productStep acc r
            = acc ++ [(pyStrip r.itemName, mkProduct (pyStrip r.itemName) r)] := by
          simp only [productStep]
          rw [if_pos hadd]
        rw [hstep, ih, List.lookup_append]
        have hone : List.lookup name [(pyStrip r.itemName, mkProduct (pyStrip r.itemName) r)]
            = none := by
          have hbeq : (name == pyStrip r.itemName) = false :=
            beq_eq_false_iff_ne.mpr fun hc => heq hc.symm
          simp [List.lookup_cons, hbeq]
        rw [hone, Option.or_none]
      · have hstep : productStep acc r = acc := by
          simp only [productStep]
          rw [if_neg hadd]
        rw [hstep, ih]

theorem products_lookup (rows : List Row) (name : List Char) (hname : name ≠ []) :
    (products rows).lookup name
      = ((rows.find? fun r => decide (pyStrip r.itemName = name)).map (mkProduct name)) := by
  have h := scanCsv_fst rows [] []
  rw [products, scanCsv, h, lookup_foldl_productStep name hname rows []]
  simp

theorem products_keys (rows : List Row) :
    (products rows).map Prod.fst = firstOccDedup [] (itemNames rows) := by
  have h := scanCsv_fst rows [] []
  have h2 := keys_foldl_productStep rows []
  simp only [List.map_nil, List.nil_append] at h2
  rw [products, scanCsv, h, h2]

theorem count_eq_one_of_nodup_mem {α : Type} [BEq α] [LawfulBEq α] {a : α} {l : List α}
    (hd : l.Nodup) (hm : a ∈ l) : l.count a = 1 := by
  induction l with
  | nil => simp at hm
  | cons b l ih =>
    rw [List.count_cons]
    rcases List.mem_cons.mp hm with rfl | hm'
    · have hz : l.count a = 0 := List.count_eq_zero.mpr (List.nodup_cons.mp hd).1
      simp [hz]
    · have hne : (b == a) = false :=
        beq_eq_false_iff_ne.mpr fun hc => (List.nodup_cons.mp hd).1 (by rw [hc]; exact hm')
      rw [ih (List.nodup_cons.mp hd).2 hm']
      simp [hne]

/-! ### The claims -/

/-- Claim C1: for every invoice identifier string and every order-number
mapping, the matcher returns the order id of the first entry in mapping
iteration order whose order number is a substring of the invoice identifier
or of which the invoice identifier is a substring, and `none` when no entry
satisfies either containment; in particular, on the mapping
`{"INV-100": 1, "INV-200": 2}` and invoice identifier `"INV-1000X"` it
returns `1`. -/
theorem claim_C1 :
    (∀ (inv : List Char) (m : List (List Char × ℤ)),
        findOrder inv m = (m.find? fun p => pyIn inv p.1 || pyIn p.1 inv).map Prod.snd) ∧
    findOrder "INV-1000X".data [("INV-100".data, 1), ("INV-200".data, 2)] = some 1 := by
  constructor
  · intro inv m
    induction m with
    | nil => rfl
    | cons p rest ih =>
      obtain ⟨num, oid⟩ := p
      show (if pyIn inv num || pyIn num inv then some oid else findOrder inv rest)
          = Option.map Prod.snd
              (List.find? (fun p => pyIn inv p.1 || pyIn p.1 inv) ((num, oid) :: rest))
      simp only [List.find?]
      by_cases h : pyIn inv num || pyIn num inv
      · rw [if_pos h, h]
        rfl
      · have hf : (pyIn inv num || pyIn num inv) = false := by simpa using h
        rw [if_neg h, hf]
        exact ih
  · decide

/-- Claim C2: for every non-empty name, the derived identifier is the first
8 bytes of the MD5 digest of the UTF-8 encoding, read big-endian and reduced
mod `10^18`; the Product variant returns that value directly and the Store
variant adds the fixed positive offset `4261931000000000000`; both results
are non-negative. -/
theorem claim_C2 (name : List Char) (_hname : name ≠ []) :
    product_id name = (bytesBE ((md5 (utf8 name)).take 8) : ℤ) % 10 ^ 18 ∧
    store_id name = product_id name + 4261931000000000000 ∧
    (0 : ℤ) < 4261931000000000000 ∧
    0 ≤ product_id name ∧ 0 ≤ store_id name := by
  refine ⟨rfl, rfl, by norm_num, Int.emod_nonneg _ (by norm_num), ?_⟩
  have h : (0 : ℤ) ≤ (hash64 name : ℤ) % 10 ^ 18 := Int.emod_nonneg _ (by norm_num)
  have e : store_id name = (hash64 name : ℤ) % 10 ^ 18 + 4261931000000000000 := rfl
  omega

theorem claim_C2_witness :
    "a".data ≠ [] ∧
    (product_id "a".data = (bytesBE ((md5 (utf8 "a".data)).take 8) : ℤ) % 10 ^ 18 ∧
     store_id "a".data = product_id "a".data + 4261931000000000000 ∧
     (0 : ℤ) < 4261931000000000000 ∧
     0 ≤ product_id "a".data ∧ 0 ≤ store_id "a".data) :=
  ⟨by decide, claim_C2 "a".data (by decide)⟩

/-- Claim C3: for every non-empty name, the Store identifier differs from the
Product identifier derived from the same name. -/
theorem claim_C3 (name : List Char) (_hname : name ≠ []) :
    store_id name ≠ product_id name := by
  have e : store_id name = product_id name + 4261931000000000000 := rfl
  omega

theorem claim_C3_witness :
    "a".data ≠ [] ∧ store_id "a".data ≠ product_id "a".data :=
  ⟨by decide, claim_C3 "a".data (by decide)⟩

/-- Claim C10: for every pair of non-empty names, the Store identifier is
strictly greater than the Product identifier: Store identifiers lie in
`[4261931000000000000, 4261931000000000000 + 10^18)`, Product identifiers in
`[0, 10^18)`, and the ranges are disjoint. -/
theorem claim_C10 (n₁ n₂ : List Char) (_h₁ : n₁ ≠ []) (_h₂ : n₂ ≠ []) :
    4261931000000000000 ≤ store_id n₁ ∧
    store_id n₁ < 4261931000000000000 + 10 ^ 18 ∧
    0 ≤ product_id n₂ ∧ product_id n₂ < 10 ^ 18 ∧
    product_id n₂ < store_id n₁ := by
  have e₁ : store_id n₁ = (hash64 n₁ : ℤ) % 10 ^ 18 + 4261931000000000000 := rfl
  have e₂ : product_id n₂ = (hash64 n₂ : ℤ) % 10 ^ 18 := rfl
  have b₁ : (0 : ℤ) ≤ (hash64 n₁ : ℤ) % 10 ^ 18 := Int.emod_nonneg _ (by norm_num)
  have b₂ : (hash64 n₁ : ℤ) % 10 ^ 18 < 10 ^ 18 := Int.emod_lt_of_pos _ (by norm_num)
  have b₃ : (0 : ℤ) ≤ (hash64 n₂ : ℤ) % 10 ^ 18 := Int.emod_nonneg _ (by norm_num)
  have b₄ : (hash64 n₂ : ℤ) % 10 ^ 18 < 10 ^ 18 := Int.emod_lt_of_pos _ (by norm_num)
  omega

theorem claim_C10_witness :
    ("a".data ≠ [] ∧ "Basmati Rice".data ≠ []) ∧
    (4261931000000000000 ≤ store_id "a".data ∧
     store_id "a".data < 4261931000000000000 + 10 ^ 18 ∧
     0 ≤ product_id "Basmati Rice".data ∧ product_id "Basmati Rice".data < 10 ^ 18 ∧
     product_id "Basmati Rice".data < store_id "a".data) :=
  ⟨⟨by decide, by decide⟩, claim_C10 "a".data "Basmati Rice".data (by decide) (by decide)⟩

/-- Claim C4: the number of synthesized Store rows equals the number of
distinct non-blank (whitespace-stripped) `Customer Name` values, and the
number of Product entries equals the number of distinct non-blank
(whitespace-stripped) `Item Name` values. -/
theorem claim_C4 (rows : List Row) :
    (storeNames rows).length = (customerNames rows).dedup.length ∧
    (products rows).length = (itemNames rows).dedup.length := by
  constructor
  · rw [storeNames, List.length_mergeSort, customersSet, length_firstOccDedup]
  · rw [show (products rows).length = ((products rows).map Prod.fst).length from
      (List.length_map _ _).symm, products_keys, length_firstOccDedup]

/-- Claim C5: whenever some row of the input carries a given non-blank item
name, exactly one Product entry is created for that name, and the entry —
price, category and brand included — is built from the first such row in
file order.  In particular two rows sharing an item name with differing
prices yield one entry with the first row's price. -/
theorem claim_C5 (rows : List Row) (name : List Char) (hname : name ≠ [])
    (hocc : ∃ r ∈ rows, pyStrip r.itemName = name) :
    ((products rows).map Prod.fst).count name = 1 ∧
    (products rows).lookup name
      = (rows.find? fun r => decide (pyStrip r.itemName = name)).map (mkProduct name) := by
  constructor
  · have hkeys := products_keys rows
    have hnodup : ((products rows).map Prod.fst).Nodup := by
      rw [hkeys]; exact nodup_firstOccDedup _ _
    have hmem : name ∈ (products rows).map Prod.fst := by
      rw [hkeys, mem_firstOccDedup]
      refine ⟨?_, List.not_mem_nil name⟩
      obtain ⟨r, hr, hstrip⟩ := hocc
      rw [itemNames, List.mem_filter]
      exact ⟨List.mem_map.mpr ⟨r, hr, hstrip⟩, by simp [hname]⟩
    exact count_eq_one_of_nodup_mem hnodup hmem
  · exact products_lookup rows name hname

theorem claim_C5_witness :
    ("Basmati Rice".data ≠ [] ∧
      (∃ r ∈ [sampleRow1, sampleRow2], pyStrip r.itemName = "Basmati Rice".data)) ∧
    (((products [sampleRow1, sampleRow2]).map Prod.fst).count "Basmati Rice".data = 1 ∧
      (products [sampleRow1, sampleRow2]).lookup "Basmati Rice".data
        = (([sampleRow1, sampleRow2].find? fun r =>
            decide (pyStrip r.itemName = "Basmati Rice".data)).map
              (mkProduct "Basmati Rice".data))) :=
  ⟨⟨by decide, by decide⟩,
    claim_C5 [sampleRow1, sampleRow2] "Basmati Rice".data (by decide) (by decide)⟩

/-- Claim C6: currency parsing strips the dollar sign and thousands
separators before numeric conversion — `"$1,234.50"` parses to `1234.50` —
and a malformed input such as `"N/A"` yields the fallback `0.0` rather than
an error (the underlying conversion fails with `none`, and the fallback
produces `0`). -/
theorem claim_C6 :
    stripCurrency "$1,234.50".data = "1234.50".data ∧
    parse_price "$1,234.50".data = 1234.5 ∧
    pyFloat (stripCurrency "N/A".data) = none ∧
    parse_price "N/A".data = 0 := by
  refine ⟨by decide, ?_, by decide, ?_⟩
  · have h1 : pyFloat (stripCurrency "$1,234.50".data)
        = some ((1 : ℚ) * (((1234 : ℕ) : ℚ) + ((50 : ℕ) : ℚ) / 10 ^ 2)) := by rfl
    show (pyFloat (stripCurrency "$1,234.50".data)).getD 0 = 1234.5
    rw [h1, Option.getD_some]
    norm_num
  · have h2 : pyFloat (stripCurrency "N/A".data) = none := by decide
    show (pyFloat (stripCurrency "N/A".data)).getD 0 = 0
    rw [h2]
    rfl

/-- Claim C7, counterexample: on a row whose `Quantity` field `"abc"` fails
to parse while `Total` is the parseable `"5"`, the code records
`(quantity, total) = (1, 0)` — the failing field receives `1`, not a
zero-valued default, and the parseable `Total` is clobbered to `0` — whereas
the claim's per-field zero default would give `(0, 5)`. -/
theorem claim_C7_counterexample :
    parseQtyTotal "abc".data "5".data = (1, 0) ∧
    parseQtyTotal "abc".data "5".data ≠ ((0 : ℚ), (5 : ℚ)) := by
  refine ⟨by decide, by decide⟩

/-- Claim C7 as amended: if the `Quantity` or the `Total` field of a row
fails numeric parsing, the row is still recorded rather than dropped — the
number of collected invoice items equals the number of rows with a non-empty
`Invoice ID` and a non-blank `Item Name`, whatever the parse outcomes — but
the substituted defaults are joint: `quantity = 1` and `total = 0`, both
fields being reset whenever either parse fails. -/
theorem claim_C7_amended (rows : List Row) (q t : List Char)
    (hfail : pyFloat q = none ∨ pyFloat (stripCurrency t) = none) :
    parseQtyTotal q t = (1, 0) ∧
    (invoice_items rows).length
      = (rows.filter fun r => decide (r.invoiceId ≠ [] ∧ pyStrip r.itemName ≠ [])).length := by
  constructor
  · rcases hfail with h | h
    · simp only [parseQtyTotal, h]
    · simp only [parseQtyTotal, h]
      cases pyFloat q <;> rfl
  · have h := scanCsv_snd_length rows [] []
    rw [invoice_items, scanCsv, h]
    exact Nat.zero_add _

theorem claim_C7_witness :
    (pyFloat "abc".data = none ∨ pyFloat (stripCurrency "5".data) = none) ∧
    (parseQtyTotal "abc".data "5".data = (1, 0) ∧
      (invoice_items [sampleRow1]).length
        = ([sampleRow1].filter fun r =>
            decide (r.invoiceId ≠ [] ∧ pyStrip r.itemName ≠ [])).length) :=
  ⟨Or.inl (by decide), claim_C7_amended [sampleRow1] "abc".data "5".data (Or.inl (by decide))⟩

/-- Claim C8: the Store Synthesizer emits its deduplicated customer rows in
lexicographic order of customer name (the output is sorted under `lexLe` and
is a permutation of the distinct customer names), while the Product Populator
processes products in insertion order — the keys of the `products` dict are
the non-blank item names deduplicated to their first occurrence, in file
order. -/
theorem claim_C8 (rows : List Row) :
    (storeNames rows).Pairwise (fun a b => lexLe a b = true) ∧
    List.Perm (storeNames rows) (customersSet rows) ∧
    (products rows).map Prod.fst = firstOccDedup [] (itemNames rows) := by
  refine ⟨?_, ?_, products_keys rows⟩
  · exact List.sorted_mergeSort (fun a b c => lexLe_trans a b c)
      (fun a b => lexLe_total a b) (customersSet rows)
  · exact List.mergeSort_perm (customersSet rows) lexLe

/-- Claim C9: the recommendation generator emits at most
`min 500 (orders × products)` rows, and — whenever the random source ranges
over `[0, 1)` as PostgreSQL's `RANDOM()` does — every emitted row's
confidence score lies in `[1/2, 1)` and its expected revenue is the matched
product's price times `6/5 = 1.2`. -/
theorem claim_C9 (rndF rndC : ℕ → ℚ) (orders : List DbOrder) (prods : List Product)
    (hrnd : ∀ i, 0 ≤ rndC i ∧ rndC i < 1) :
    (genRecs rndF rndC orders prods).length ≤ min 500 (orders.length * prods.length) ∧
    ∀ rec ∈ genRecs rndF rndC orders prods,
      (1 / 2 ≤ rec.confidence ∧ rec.confidence < 1) ∧
      ∃ p ∈ prods, rec.productId = p.id ∧ rec.expectedRevenue = p.price * (6 / 5) := by
  constructor
  · rw [genRecs, List.length_take]
    refine min_le_min (le_refl 500) ?_
    calc (((List.product orders prods).enum.filter
            fun ip => decide (rndF ip.1 < 1 / 10)).map _).length
        = ((List.product orders prods).enum.filter
            fun ip => decide (rndF ip.1 < 1 / 10)).length := List.length_map _ _
      _ ≤ (List.product orders prods).enum.length := List.length_filter_le _ _
      _ = (List.product orders prods).length := List.enum_length
      _ = orders.length * prods.length := List.length_product _ _
  · intro rec hrec
    rw [genRecs] at hrec
    obtain ⟨ip, hip, rfl⟩ := List.mem_map.mp (List.mem_of_mem_take hrec)
    have hmem : ip ∈ (List.product orders prods).enum := (List.mem_filter.mp hip).1
    have hpair : ip.2 ∈ List.product orders prods :=
      List.getElem?_mem (List.mem_enum_iff_getElem?.mp hmem)
    constructor
    · obtain ⟨h0, h1⟩ := hrnd ip.1
      constructor
      · have : 0 ≤ rndC ip.1 * (1 / 2) := by positivity
        simp only [Recommendation.confidence]
        linarith
      · simp only [Recommendation.confidence]
        linarith
    · refine ⟨ip.2.2, ?_, rfl, rfl⟩
      have hpair' : (ip.2.1, ip.2.2) ∈ List.product orders prods := by
        rw [Prod.mk.eta]; exact hpair
      exact (List.mem_product.mp hpair').2

theorem claim_C9_witness :
    (∀ i, 0 ≤ (fun _ : ℕ => (1 : ℚ) / 2) i ∧ (fun _ : ℕ => (1 : ℚ) / 2) i < 1) ∧
    ((genRecs (fun _ => 0) (fun _ => (1 : ℚ) / 2) [sampleOrder] [sampleProduct]).length
        ≤ min 500 ([sampleOrder].length * [sampleProduct].length) ∧
      ∀ rec ∈ genRecs (fun _ => 0) (fun _ => (1 : ℚ) / 2) [sampleOrder] [sampleProduct],
        (1 / 2 ≤ rec.confidence ∧ rec.confidence < 1) ∧
        ∃ p ∈ [sampleProduct], rec.productId = p.id ∧
          rec.expectedRevenue = p.price * (6 / 5)) :=
  ⟨fun i => ⟨by norm_num, by norm_num⟩,
    claim_C9 (fun _ => 0) (fun _ => (1 : ℚ) / 2) [sampleOrder] [sampleProduct]
      fun i => ⟨by norm_num, by norm_num⟩⟩

end Mangalm
